import Mathlib

/-!
Click-propagation guard of `assets/modal.js`.

A shallow embedding of the script `src/assets/modal.js` together with the part
of the browser's event model the script relies on: a document tree queried by
identifier, event-listener registration keyed by function identity, and
bubbling event dispatch with the stop-propagation flag.

The live part of the script (lines 12-25) is

```
document.addEventListener('DOMContentLoaded', function () {
    const modal = document.getElementById('markdown');
    const modalContent = document.getElementById('markdown-container');
    if (modal && modalContent) {
        modal.addEventListener('click', function (e) {
            if (e.target === modal) {
            } else {
                e.stopPropagation();
            }
        });
    }
});
```

Lines 1-10 are a comment and are not modelled.
-/

namespace ModalJs

/-! ## Document tree -/

/-- Identity of an element: its position in the document's node list. -/
abbrev NodeRef := Nat

/-- An element: tag name, `id` attribute, and the position of its parent
element (`none` for an element directly under the document). -/
structure Node where
  tag : String
  id : Option String
  parent : Option NodeRef
deriving DecidableEq

/-- A document: its elements listed in tree (document) order. -/
abbrev Document := List Node

/-- The `id` attribute of element `r`. -/
def idOf (doc : Document) (r : NodeRef) : Option String :=
  doc[r]?.bind Node.id

/-- The parent element of element `r`. -/
def parentOf (doc : Document) (r : Nat) : Option Nat :=
  doc[r]?.bind Node.parent

/-- The chain `r, parent r, parent (parent r), ...` of at most `fuel` elements. -/
def ancestorsOrSelf (doc : Document) : Nat → Nat → List Nat
  | 0, _ => []
  | fuel + 1, r =>
    r :: (match parentOf doc r with
          | none => []
          | some p => ancestorsOrSelf doc fuel p)

/-- A document is well formed when its nodes are in tree order: every parent
precedes its children, and the parent of a node is the node listed just before
it or one of that node's ancestors. -/
def wellFormed (doc : Document) : Bool :=
  (List.range doc.length).all fun r =>
    match parentOf doc r with
    | none => true
    | some p => decide (p < r) && decide (p ∈ ancestorsOrSelf doc r (r - 1))

/-- Search for the first node with `id` attribute `s`, `i` being the position
of the head of the list. -/
def findId (s : String) : List Node → Nat → Option NodeRef
  | [], _ => none
  | n :: ns, i => if n.id = some s then some i else findId s ns (i + 1)

/-- The host's `document.getElementById`: the first element in tree order
whose `id` attribute is `s`, or `none` (JavaScript `null`). -/
def getElementById (doc : Document) (s : String) : Option NodeRef :=
  findId s doc 0

/-! ## Events, listeners and the page state -/

/-- An object listeners can be registered on. -/
inductive Target where
  | document
  | element (r : NodeRef)
deriving DecidableEq

/-- A click or lifecycle event object. `stopPropagationCalls` is bookkeeping:
it counts the calls of `stopPropagation` made on the event. -/
structure Event where
  type : String
  target : Target
  propagationStopped : Bool
  immediatePropagationStopped : Bool
  defaultPrevented : Bool
  stopPropagationCalls : Nat
deriving DecidableEq

/-- A newly created event of the given type and target. -/
def Event.fresh (type : String) (target : Target) : Event :=
  { type := type, target := target, propagationStopped := false,
    immediatePropagationStopped := false, defaultPrevented := false,
    stopPropagationCalls := 0 }

/-- The host's `e.stopPropagation()`: sets the stop-propagation flag. -/
def Event.stopPropagation (e : Event) : Event :=
  { e with propagationStopped := true,
           stopPropagationCalls := e.stopPropagationCalls + 1 }

/-- Bodies of the functions that can be listeners. The first two are the two
function expressions of the script, with the variables of their lexical scope
(`none` is `null`); `observer` is a listener of the surrounding page that only
records that it received the event. -/
inductive Code where
  | contentLoaded
  | modalClick (modal modalContent : Option Target)
  | observer (tag : Nat)
deriving DecidableEq

/-- Whether a function body is that of an observing listener of the page. -/
def Code.isObserver : Code → Bool
  | .observer _ => true
  | _ => false

/-- A function object: every evaluation of a function expression yields an
object with a new identity. -/
structure Fn where
  ident : Nat
  code : Code
deriving DecidableEq

/-- One registered event listener (all listeners are bubble-phase). -/
structure Registration where
  target : Target
  type : String
  fn : Fn
deriving DecidableEq

/-- What an observer listener records: its tag and the object it was
registered on. -/
structure Observation where
  tag : Nat
  at_ : Target
deriving DecidableEq

/-- The page: document, registered listeners in registration order, the
identity the next function object gets, and what the observers recorded. -/
structure World where
  doc : Document
  listeners : List Registration
  nextFn : Nat
  log : List Observation
deriving DecidableEq

/-- A page just loaded: no listeners yet. -/
def World.init (doc : Document) : World :=
  { doc := doc, listeners := [], nextFn := 0, log := [] }

/-- Every registered function object has an identity that was already handed
out. -/
def World.Fresh (w : World) : Prop :=
  ∀ reg ∈ w.listeners, reg.fn.ident < w.nextFn

instance (w : World) : Decidable w.Fresh := by
  unfold World.Fresh; infer_instance

/-- Errors a script can raise. -/
inductive JsError where
  | typeError
deriving DecidableEq

/-- What a function call returns. -/
inductive ReturnValue where
  | undefined
  | value (v : Nat)
deriving DecidableEq

deriving instance DecidableEq for Except

/-- The host's `addEventListener`: appends the listener unless the same
function object is already registered on that object for that type. -/
def addEventListener (t : Target) (type : String) (fn : Fn) (w : World) : World :=
  if w.listeners.any (fun reg =>
      decide (reg.target = t ∧ reg.type = type ∧ reg.fn.ident = fn.ident)) then w
  else { w with listeners := w.listeners ++ [⟨t, type, fn⟩] }

/-- The method call `recv.addEventListener(type, fn)` where `recv` is the
value of a variable: a `TypeError` when `recv` is `null`. -/
def callAddEventListener (recv : Option Target) (type : String) (fn : Fn)
    (w : World) : Except JsError World :=
  match recv with
  | none => .error .typeError
  | some t => .ok (addEventListener t type fn w)

/-! ## The script -/

/-- The click handler, lines 16-23: `function (e) { if (e.target === modal) {}
else { e.stopPropagation(); } }`. -/
def modalClick (modal _modalContent : Option Target) (e : Event) :
    Except JsError (ReturnValue × Event) :=
  if some e.target = modal then
    .ok (.undefined, e)
  else
    .ok (.undefined, e.stopPropagation)

/-- The content-loaded handler, lines 12-25. -/
def contentLoaded (w : World) : Except JsError (ReturnValue × World) :=
  let modal : Option Target := (getElementById w.doc "markdown").map .element
  let modalContent : Option Target :=
    (getElementById w.doc "markdown-container").map .element
  if modal.isSome && modalContent.isSome then
    match callAddEventListener modal "click" ⟨w.nextFn, .modalClick modal modalContent⟩
        { w with nextFn := w.nextFn + 1 } with
    | .error err => .error err
    | .ok w1 => .ok (.undefined, w1)
  else
    .ok (.undefined, w)

/-- The top level of the script, line 12: registers the content-loaded
handler on the document. -/
def script (w : World) : World :=
  addEventListener .document "DOMContentLoaded" ⟨w.nextFn, .contentLoaded⟩
    { w with nextFn := w.nextFn + 1 }

/-- The surrounding page registers an observing click listener on `t`. -/
def observe (t : Target) (tag : Nat) (w : World) : World :=
  addEventListener t "click" ⟨w.nextFn, .observer tag⟩
    { w with nextFn := w.nextFn + 1 }

/-! ## Event dispatch -/

/-- Call listener function `fn`, registered on `cur`, with event `e`. -/
def invoke (fn : Fn) (cur : Target) (e : Event) (w : World) :
    Except JsError (ReturnValue × Event × World) :=
  match fn.code with
  | .contentLoaded =>
    match contentLoaded w with
    | .error err => .error err
    | .ok (r, w1) => .ok (r, e, w1)
  | .modalClick modal modalContent =>
    match modalClick modal modalContent e with
    | .error err => .error err
    | .ok (r, e1) => .ok (r, e1, w)
  | .observer tag =>
    .ok (.undefined, e, { w with log := w.log ++ [⟨tag, cur⟩] })

/-- Run, in registration order, the listeners of the list `regs` that are
registered on `cur` for the event's type. Stopping propagation does not keep
the remaining listeners of the same object from running; only the
stop-immediate-propagation flag does. -/
def runListeners (cur : Target) : List Registration → Event → World →
    Except JsError (Event × World)
  | [], e, w => .ok (e, w)
  | reg :: regs, e, w =>
    if reg.target = cur ∧ reg.type = e.type ∧ e.immediatePropagationStopped = false then
      match invoke reg.fn cur e w with
      | .error err => .error err
      | .ok (_, e1, w1) => runListeners cur regs e1 w1
    else
      runListeners cur regs e w

/-- The propagation path of an event: the target, its ancestors from the
inside out, then the document. A parent precedes its children in document
order, so the chain from element `r` has at most `r + 1` elements. -/
def eventPath (doc : Document) : Target → List Target
  | .document => [.document]
  | .element r => (ancestorsOrSelf doc (r + 1) r).map .element ++ [.document]

/-- Bubble the event along `path`: at each object run the listeners registered
on it at that moment, and go on to the next object unless propagation was
stopped. -/
def propagate : List Target → Event → World → Except JsError (Event × World)
  | [], e, w => .ok (e, w)
  | cur :: rest, e, w =>
    match runListeners cur w.listeners e w with
    | .error err => .error err
    | .ok (e1, w1) =>
      if e1.propagationStopped then .ok (e1, w1) else propagate rest e1 w1

/-- Dispatch a new event of type `type` at `target`. -/
def dispatchEvent (w : World) (type : String) (target : Target) :
    Except JsError (Event × World) :=
  propagate (eventPath w.doc target) (Event.fresh type target) w

/-- The script is loaded and the content-loaded signal fires once. -/
def initialise (w : World) : Except JsError World :=
  match dispatchEvent (script w) "DOMContentLoaded" .document with
  | .error err => .error err
  | .ok (_, w1) => .ok w1

/-! ## Scenarios -/

/-- The script is loaded on page `w`, the content-loaded signal fires once,
and then the user clicks on `t`. -/
def clickAfterInit (w : World) (t : Target) : Except JsError (Event × World) :=
  match initialise w with
  | .error err => .error err
  | .ok w1 => dispatchEvent w1 "click" t

/-- The script is loaded on page `w` and the content-loaded signal fires
twice. -/
def initialiseTwice (w : World) : Except JsError World :=
  match initialise w with
  | .error err => .error err
  | .ok w1 =>
    match dispatchEvent w1 "DOMContentLoaded" .document with
    | .error err => .error err
    | .ok (_, w2) => .ok w2

/-- The content-loaded signal fires twice, and then the user clicks on `t`. -/
def clickAfterInitTwice (w : World) (t : Target) : Except JsError (Event × World) :=
  match initialiseTwice w with
  | .error err => .error err
  | .ok w2 => dispatchEvent w2 "click" t

/-- A page over `doc` with two observing click listeners of its own: tag 1 on
the document and tag 2 on element 1 (the `body` of the documents below). -/
def pageWithObservers (doc : Document) : World :=
  observe (.element 1) 2 (observe .document 1 (World.init doc))

/-- The page with observers at the moment the script has been loaded and the
content-loaded handler is about to be called. -/
def pageReady (doc : Document) : World :=
  script (pageWithObservers doc)

/-- What a scenario shows: whether propagation ended up stopped, how often
`stopPropagation` was called, and what the observers recorded. -/
def outcome (r : Except JsError (Event × World)) :
    Except JsError (Bool × Nat × List Observation) :=
  match r with
  | .error err => .error err
  | .ok (e, w) => .ok (e.propagationStopped, e.stopPropagationCalls, w.log)

/-- The click listeners registered on `t`. -/
def clickListenersOn (t : Target) (w : World) : List Fn :=
  (w.listeners.filter fun reg => decide (reg.target = t ∧ reg.type = "click")).map
    Registration.fn

/-! ## Predicates used in the proofs -/

/-- The relation between the event and page before and after running
listeners registered on the objects `vis`: the event keeps its type, target and
its other flags, a stopped event stays stopped, the document is unchanged,
listeners are only added, and new observations come from `vis` only. -/
structure Step (vis : List Target) (e : Event) (w : World) (e1 : Event) (w1 : World) :
    Prop where
  type_eq : e1.type = e.type
  target_eq : e1.target = e.target
  imm_eq : e1.immediatePropagationStopped = e.immediatePropagationStopped
  prevented_eq : e1.defaultPrevented = e.defaultPrevented
  stopped_mono : e.propagationStopped = true → e1.propagationStopped = true
  doc_eq : w1.doc = w.doc
  listeners_mono : ∀ reg ∈ w.listeners, reg ∈ w1.listeners
  log_new : ∀ o ∈ w1.log, o ∈ w.log ∨ o.at_ ∈ vis

/-- What the observers among `regs`, registered on `cur` for events of type
`type`, record when they run. -/
def observations (cur : Target) (type : String) : List Registration → List Observation
  | [] => []
  | reg :: regs =>
    if reg.target = cur ∧ reg.type = type then
      match reg.fn.code with
      | .observer tag => ⟨tag, cur⟩ :: observations cur type regs
      | _ => observations cur type regs
    else observations cur type regs

/-- What the observers among `regs` record when an event of type `type`
visits every object of `path`. -/
def pathObservations (path : List Target) (type : String) (regs : List Registration) :
    List Observation :=
  path.flatMap fun cur => observations cur type regs

/-- Every listener for the event's type is an observer or a click handler of
the script whose overlay is the event's target. -/
def Passes (e : Event) (regs : List Registration) : Prop :=
  ∀ reg ∈ regs, reg.type = e.type →
    (∃ tag, reg.fn.code = .observer tag) ∨
    (∃ content, reg.fn.code = .modalClick (some e.target) content)

/-- One of the two lookups of the content-loaded handler finds nothing. -/
def Inert (doc : Document) : Prop :=
  getElementById doc "markdown" = none ∨ getElementById doc "markdown-container" = none

/-! ## Concrete documents -/

/-- The document `<html><body><div id="modal"><div id="markdown-container">
<button id="inner">X</button></div></div></body></html>`. -/
def docModal : Document :=
  [ ⟨"html", none, none⟩,
    ⟨"body", none, some 0⟩,
    ⟨"div", some "modal", some 1⟩,
    ⟨"div", some "markdown-container", some 2⟩,
    ⟨"button", some "inner", some 3⟩ ]

/-- The document `<html><body><div id="markdown"><div id="markdown-container">
<button id="inner">X</button></div></div></body></html>`. -/
def docMarkdown : Document :=
  [ ⟨"html", none, none⟩,
    ⟨"body", none, some 0⟩,
    ⟨"div", some "markdown", some 1⟩,
    ⟨"div", some "markdown-container", some 2⟩,
    ⟨"button", some "inner", some 3⟩ ]

/-- The document `<html><body><div id="markdown"><span id="close">x</span>
<div id="markdown-container"></div></div></body></html>`: the overlay has a
child outside the content container. -/
def docClose : Document :=
  [ ⟨"html", none, none⟩,
    ⟨"body", none, some 0⟩,
    ⟨"div", some "markdown", some 1⟩,
    ⟨"span", some "close", some 2⟩,
    ⟨"div", some "markdown-container", some 2⟩ ]

/-- The document `<html><body><div id="modal"><div id="markdown">
<div id="markdown-container"></div></div></div></body></html>`. -/
def docBoth : Document :=
  [ ⟨"html", none, none⟩,
    ⟨"body", none, some 0⟩,
    ⟨"div", some "modal", some 1⟩,
    ⟨"div", some "markdown", some 2⟩,
    ⟨"div", some "markdown-container", some 3⟩ ]

/-- The document `<html><body><div id="markdown"></div></body></html>`: no
content container. -/
def docNoContent : Document :=
  [ ⟨"html", none, none⟩,
    ⟨"body", none, some 0⟩,
    ⟨"div", some "markdown", some 1⟩ ]

/-- The document `<html><body><div id="markdown-container"></div></body>
</html>`: no overlay. -/
def docNoOverlay : Document :=
  [ ⟨"html", none, none⟩,
    ⟨"body", none, some 0⟩,
    ⟨"div", some "markdown-container", some 1⟩ ]

/-! ## Lookup by identifier -/

theorem findId_spec (s : String) (ns : List Node) (i r : Nat)
    (h : findId s ns i = some r) :
    ∃ k, r = i + k ∧ ns[k]?.bind Node.id = some s ∧
      ∀ j, j < k → ns[j]?.bind Node.id ≠ some s := by
  induction ns generalizing i with
  | nil => simp [findId] at h
  | cons n ns ih =>
    unfold findId at h
    split at h
    · rename_i hn
      refine ⟨0, ?_, ?_, ?_⟩
      · simpa using (Option.some.inj h).symm
      · simpa using hn
      · intro j hj; omega
    · rename_i hn
      obtain ⟨k, hk, hid, hfirst⟩ := ih (i + 1) h
      refine ⟨k + 1, by omega, by simpa using hid, ?_⟩
      intro j hj
      cases j with
      | zero => simpa using hn
      | succ j => simpa using hfirst j (by omega)

/-- The element found by identifier carries that identifier. -/
theorem getElementById_idOf (doc : Document) (s : String) (r : NodeRef)
    (h : getElementById doc s = some r) : idOf doc r = some s := by
  obtain ⟨k, hk, hid, _⟩ := findId_spec s doc 0 r h
  have : r = k := by simpa using hk
  subst this
  exact hid

/-- No element before the one found carries the identifier. -/
theorem getElementById_first (doc : Document) (s : String) (r : NodeRef)
    (h : getElementById doc s = some r) : ∀ j, j < r → idOf doc j ≠ some s := by
  obtain ⟨k, hk, _, hfirst⟩ := findId_spec s doc 0 r h
  have : r = k := by simpa using hk
  subst this
  exact hfirst

/-! ## The content-loaded handler -/

theorem contentLoaded_no_overlay (w : World)
    (h : getElementById w.doc "markdown" = none) :
    contentLoaded w = .ok (.undefined, w) := by
  simp [contentLoaded, h]

theorem contentLoaded_no_content (w : World)
    (h : getElementById w.doc "markdown-container" = none) :
    contentLoaded w = .ok (.undefined, w) := by
  simp [contentLoaded, h]

theorem contentLoaded_both (w : World) (m c : NodeRef)
    (hm : getElementById w.doc "markdown" = some m)
    (hc : getElementById w.doc "markdown-container" = some c) :
    contentLoaded w = .ok (.undefined,
      addEventListener (.element m) "click"
        ⟨w.nextFn, .modalClick (some (.element m)) (some (.element c))⟩
        { w with nextFn := w.nextFn + 1 }) := by
  simp [contentLoaded, hm, hc, callAddEventListener]

theorem addEventListener_fresh (t : Target) (type : String) (fn : Fn) (w : World)
    (h : ∀ reg ∈ w.listeners, reg.fn.ident ≠ fn.ident) :
    addEventListener t type fn w = { w with listeners := w.listeners ++ [⟨t, type, fn⟩] } := by
  unfold addEventListener
  rw [if_neg]
  simp only [List.any_eq_true, decide_eq_true_eq, not_exists, not_and]
  intro reg hreg _ _
  exact h reg hreg

theorem contentLoaded_both_fresh (w : World) (m c : NodeRef)
    (hm : getElementById w.doc "markdown" = some m)
    (hc : getElementById w.doc "markdown-container" = some c)
    (hfresh : w.Fresh) :
    contentLoaded w = .ok (.undefined,
      { w with
        listeners := w.listeners ++ [⟨.element m, "click",
          ⟨w.nextFn, .modalClick (some (.element m)) (some (.element c))⟩⟩],
        nextFn := w.nextFn + 1 }) := by
  rw [contentLoaded_both w m c hm hc, addEventListener_fresh]
  intro reg hreg
  exact Nat.ne_of_lt (hfresh reg hreg)

/-! ## What listener calls can change -/

theorem Step.refl (vis : List Target) (e : Event) (w : World) : Step vis e w e w :=
  ⟨rfl, rfl, rfl, rfl, id, rfl, fun _ h => h, fun _ h => Or.inl h⟩

theorem Step.trans {vis : List Target} {e e1 e2 : Event} {w w1 w2 : World}
    (h1 : Step vis e w e1 w1) (h2 : Step vis e1 w1 e2 w2) : Step vis e w e2 w2 where
  type_eq := h2.type_eq.trans h1.type_eq
  target_eq := h2.target_eq.trans h1.target_eq
  imm_eq := h2.imm_eq.trans h1.imm_eq
  prevented_eq := h2.prevented_eq.trans h1.prevented_eq
  stopped_mono := fun h => h2.stopped_mono (h1.stopped_mono h)
  doc_eq := h2.doc_eq.trans h1.doc_eq
  listeners_mono := fun reg h => h2.listeners_mono reg (h1.listeners_mono reg h)
  log_new := fun o h => by
    rcases h2.log_new o h with h | h
    · exact h1.log_new o h
    · exact Or.inr h

theorem Step.mono {vis vis1 : List Target} {e e1 : Event} {w w1 : World}
    (h : Step vis e w e1 w1) (hsub : ∀ t ∈ vis, t ∈ vis1) : Step vis1 e w e1 w1 :=
  { h with log_new := fun o ho => (h.log_new o ho).imp_right (hsub _) }

theorem addEventListener_doc (t : Target) (type : String) (fn : Fn) (w : World) :
    (addEventListener t type fn w).doc = w.doc := by
  unfold addEventListener; split <;> rfl

theorem addEventListener_log (t : Target) (type : String) (fn : Fn) (w : World) :
    (addEventListener t type fn w).log = w.log := by
  unfold addEventListener; split <;> rfl

theorem addEventListener_nextFn (t : Target) (type : String) (fn : Fn) (w : World) :
    (addEventListener t type fn w).nextFn = w.nextFn := by
  unfold addEventListener; split <;> rfl

theorem addEventListener_mono (t : Target) (type : String) (fn : Fn) (w : World) :
    ∀ reg ∈ w.listeners, reg ∈ (addEventListener t type fn w).listeners := by
  intro reg hreg
  unfold addEventListener; split
  · exact hreg
  · exact List.mem_append_left _ hreg

/-- The content-loaded handler always completes, returns nothing, and at most
adds a listener. -/
theorem contentLoaded_total (w : World) :
    ∃ w1, contentLoaded w = .ok (.undefined, w1) ∧ w1.doc = w.doc ∧ w1.log = w.log ∧
      ∀ reg ∈ w.listeners, reg ∈ w1.listeners := by
  rcases hm : getElementById w.doc "markdown" with _ | m
  · exact ⟨w, contentLoaded_no_overlay w hm, rfl, rfl, fun _ h => h⟩
  · rcases hc : getElementById w.doc "markdown-container" with _ | c
    · exact ⟨w, contentLoaded_no_content w hc, rfl, rfl, fun _ h => h⟩
    · refine ⟨_, contentLoaded_both w m c hm hc, ?_, ?_, ?_⟩
      · rw [addEventListener_doc]
      · rw [addEventListener_log]
      · intro reg hreg
        exact addEventListener_mono _ _ _ _ reg hreg

theorem modalClick_cases (modal content : Option Target) (e : Event) :
    (some e.target = modal ∧ modalClick modal content e = .ok (.undefined, e)) ∨
    (some e.target ≠ modal ∧
      modalClick modal content e = .ok (.undefined, e.stopPropagation)) := by
  unfold modalClick
  by_cases h : some e.target = modal
  · exact Or.inl ⟨h, by rw [if_pos h]⟩
  · exact Or.inr ⟨h, by rw [if_neg h]⟩

theorem invoke_step (fn : Fn) (cur : Target) (e : Event) (w : World) :
    ∃ e1 w1, invoke fn cur e w = .ok (.undefined, e1, w1) ∧ Step [cur] e w e1 w1 := by
  unfold invoke
  rcases hcode : fn.code with _ | ⟨modal, content⟩ | tag
  · obtain ⟨w1, hw1, hdoc, hlog, hmono⟩ := contentLoaded_total w
    refine ⟨e, w1, by simp [hw1], ?_⟩
    exact ⟨rfl, rfl, rfl, rfl, id, hdoc, hmono, fun o ho => Or.inl (hlog ▸ ho)⟩
  · rcases modalClick_cases modal content e with ⟨_, h⟩ | ⟨_, h⟩
    · exact ⟨e, w, by simp [h], Step.refl _ _ _⟩
    · refine ⟨e.stopPropagation, w, by simp [h], ?_⟩
      exact ⟨rfl, rfl, rfl, rfl, fun _ => rfl, rfl, fun _ h => h, fun _ h => Or.inl h⟩
  · refine ⟨e, _, rfl, ?_⟩
    refine ⟨rfl, rfl, rfl, rfl, id, rfl, fun _ h => h, ?_⟩
    intro o ho
    simp only [List.mem_append, List.mem_singleton] at ho
    rcases ho with ho | ho
    · exact Or.inl ho
    · exact Or.inr (by simp [ho])

theorem runListeners_step (cur : Target) (regs : List Registration) (e : Event)
    (w : World) :
    ∃ e1 w1, runListeners cur regs e w = .ok (e1, w1) ∧ Step [cur] e w e1 w1 := by
  induction regs generalizing e w with
  | nil => exact ⟨e, w, rfl, Step.refl _ _ _⟩
  | cons reg regs ih =>
    unfold runListeners
    split
    · obtain ⟨e1, w1, hinv, hstep⟩ := invoke_step reg.fn cur e w
      obtain ⟨e2, w2, hrun, hstep2⟩ := ih e1 w1
      exact ⟨e2, w2, by simp [hinv, hrun], hstep.trans hstep2⟩
    · exact ih e w

theorem propagate_step (path : List Target) (e : Event) (w : World) :
    ∃ e1 w1, propagate path e w = .ok (e1, w1) ∧ Step path e w e1 w1 := by
  induction path generalizing e w with
  | nil => exact ⟨e, w, rfl, Step.refl _ _ _⟩
  | cons cur rest ih =>
    obtain ⟨e1, w1, hrun, hstep⟩ := runListeners_step cur w.listeners e w
    have hstep1 : Step (cur :: rest) e w e1 w1 :=
      hstep.mono (fun t ht => by simp at ht; simp [ht])
    unfold propagate
    by_cases hs : e1.propagationStopped = true
    · exact ⟨e1, w1, by simp [hrun, hs], hstep1⟩
    · obtain ⟨e2, w2, hprop, hstep2⟩ := ih e1 w1
      refine ⟨e2, w2, by simp [hrun, hs, hprop], hstep1.trans ?_⟩
      exact hstep2.mono (fun t ht => List.mem_cons_of_mem _ ht)

/-- Dispatching an event always completes. -/
theorem dispatchEvent_total (w : World) (type : String) (target : Target) :
    ∃ e1 w1, dispatchEvent w type target = .ok (e1, w1) ∧
      Step (eventPath w.doc target) (Event.fresh type target) w e1 w1 :=
  propagate_step _ _ _

/-! ## Propagation stops at the overlay -/

/-- When the overlay's click handler is among the listeners run on the overlay
and the click's target is another object, the event leaves the overlay with
propagation stopped. -/
theorem runListeners_stops (m : NodeRef) (i : Nat) (content : Option Target)
    (regs : List Registration) (e : Event) (w : World)
    (hreg : ⟨.element m, "click", ⟨i, .modalClick (some (.element m)) content⟩⟩ ∈ regs)
    (htype : e.type = "click") (htarget : e.target ≠ .element m)
    (himm : e.immediatePropagationStopped = false) :
    ∃ e1 w1, runListeners (.element m) regs e w = .ok (e1, w1) ∧
      e1.propagationStopped = true ∧ Step [.element m] e w e1 w1 := by
  induction regs generalizing e w with
  | nil => simp at hreg
  | cons reg regs ih =>
    rcases List.mem_cons.mp hreg with hhead | htail
    · subst hhead
      have hcall : invoke ⟨i, .modalClick (some (.element m)) content⟩ (.element m) e w
          = .ok (.undefined, e.stopPropagation, w) := by
        have hne : some e.target ≠ some (Target.element m) := fun h => htarget (Option.some.inj h)
        simp [invoke, modalClick, hne]
      obtain ⟨e2, w2, hrun, hstep2⟩ := runListeners_step (.element m) regs e.stopPropagation w
      refine ⟨e2, w2, ?_, hstep2.stopped_mono rfl, ?_⟩
      · simp [runListeners, htype, himm, hcall, hrun]
      · refine Step.trans ?_ hstep2
        exact ⟨rfl, rfl, rfl, rfl, fun _ => rfl, rfl, fun _ h => h, fun _ h => Or.inl h⟩
    · unfold runListeners
      split
      · obtain ⟨e1, w1, hinv, hstep⟩ := invoke_step reg.fn (.element m) e w
        obtain ⟨e2, w2, hrun, hstopped, hstep2⟩ := ih e1 w1 htail
          (hstep.type_eq.trans htype) (by rw [hstep.target_eq]; exact htarget)
          (hstep.imm_eq.trans himm)
        exact ⟨e2, w2, by simp [hinv, hrun], hstopped, hstep.trans hstep2⟩
      · exact ih e w htail htype htarget himm

/-- A click whose target is not the overlay does not travel beyond the
overlay: bubbling along a path through the overlay gives the same result as
bubbling along the path cut off after the overlay, and ends with propagation
stopped. -/
theorem propagate_stops_at_overlay (m : NodeRef) (i : Nat) (content : Option Target)
    (pre post : List Target) (e : Event) (w : World)
    (hreg : ⟨.element m, "click", ⟨i, .modalClick (some (.element m)) content⟩⟩
      ∈ w.listeners)
    (htype : e.type = "click") (htarget : e.target ≠ .element m)
    (himm : e.immediatePropagationStopped = false) :
    ∃ e1 w1, propagate (pre ++ .element m :: post) e w = .ok (e1, w1) ∧
      propagate (pre ++ [.element m]) e w = .ok (e1, w1) ∧
      e1.propagationStopped = true := by
  induction pre generalizing e w with
  | nil =>
    obtain ⟨e1, w1, hrun, hstopped, _⟩ :=
      runListeners_stops m i content w.listeners e w hreg htype htarget himm
    exact ⟨e1, w1, by simp [propagate, hrun, hstopped], by simp [propagate, hrun, hstopped],
      hstopped⟩
  | cons cur pre ih =>
    obtain ⟨e1, w1, hrun, hstep⟩ := runListeners_step cur w.listeners e w
    by_cases hs : e1.propagationStopped = true
    · exact ⟨e1, w1, by simp [propagate, hrun, hs], by simp [propagate, hrun, hs], hs⟩
    · obtain ⟨e2, w2, h1, h2, hstopped⟩ := ih e1 w1 (hstep.listeners_mono _ hreg)
        (hstep.type_eq.trans htype) (by rw [hstep.target_eq]; exact htarget)
        (hstep.imm_eq.trans himm)
      exact ⟨e2, w2, by simp [propagate, hrun, hs, h1], by simp [propagate, hrun, hs, h2],
        hstopped⟩

/-! ## Listeners that let the event pass -/

theorem mem_observations (cur : Target) (type : String) (regs : List Registration)
    (i tag : Nat) (h : ⟨cur, type, ⟨i, .observer tag⟩⟩ ∈ regs) :
    ⟨tag, cur⟩ ∈ observations cur type regs := by
  induction regs with
  | nil => simp at h
  | cons reg regs ih =>
    rcases List.mem_cons.mp h with hhead | htail
    · subst hhead
      simp [observations]
    · unfold observations
      split
      · split
        · exact List.mem_cons_of_mem _ (ih htail)
        · exact ih htail
      · exact ih htail

theorem runListeners_passes (cur : Target) (regs : List Registration) (e : Event)
    (w : World) (hpass : Passes e regs) (himm : e.immediatePropagationStopped = false) :
    runListeners cur regs e w =
      .ok (e, { w with log := w.log ++ observations cur e.type regs }) := by
  induction regs generalizing w with
  | nil => simp [runListeners, observations]
  | cons reg regs ih =>
    have hrest : Passes e regs := fun r hr => hpass r (List.mem_cons_of_mem _ hr)
    unfold runListeners observations
    by_cases hc : reg.target = cur ∧ reg.type = e.type
    · have hc3 : reg.target = cur ∧ reg.type = e.type ∧
          e.immediatePropagationStopped = false := ⟨hc.1, hc.2, himm⟩
      rw [if_pos hc3, if_pos hc]
      rcases hpass reg (List.mem_cons_self _ _) hc.2 with ⟨tag, hcode⟩ | ⟨content, hcode⟩
      · simp only [invoke, hcode]
        rw [ih _ hrest]
        simp
      · simp only [invoke, hcode, modalClick, if_true]
        rw [ih _ hrest]
    · have hc3 : ¬ (reg.target = cur ∧ reg.type = e.type ∧
          e.immediatePropagationStopped = false) := fun h => hc ⟨h.1, h.2.1⟩
      rw [if_neg hc3, if_neg hc]
      exact ih _ hrest

theorem propagate_passes (path : List Target) (e : Event) (w : World)
    (hpass : Passes e w.listeners) (himm : e.immediatePropagationStopped = false)
    (hstop : e.propagationStopped = false) :
    propagate path e w =
      .ok (e, { w with log := w.log ++ pathObservations path e.type w.listeners }) := by
  induction path generalizing w with
  | nil => simp [propagate, pathObservations]
  | cons cur rest ih =>
    unfold propagate
    rw [runListeners_passes cur w.listeners e w hpass himm]
    simp only [hstop, Bool.false_eq_true, if_false]
    refine (ih _ ?_).trans ?_
    · exact hpass
    · simp [pathObservations, List.flatMap_cons, List.append_assoc]

/-! ## Propagation paths in well-formed documents -/

theorem parent_lt_of_wellFormed (doc : Document) (hwf : wellFormed doc = true)
    (r p : Nat) (h : parentOf doc r = some p) : p < r := by
  have hr : r < doc.length := by
    by_contra hge
    have hnone : doc[r]? = none := List.getElem?_eq_none (Nat.le_of_not_lt hge)
    simp [parentOf, hnone] at h
  have hall := (List.all_eq_true.mp hwf) r (List.mem_range.mpr hr)
  simp only [h, Bool.and_eq_true, decide_eq_true_eq] at hall
  exact hall.1

theorem ancestorsOrSelf_succ (doc : Document) (fuel r : Nat) :
    ancestorsOrSelf doc (fuel + 1) r =
      r :: (match parentOf doc r with
            | none => []
            | some p => ancestorsOrSelf doc fuel p) := rfl

theorem ancestorsOrSelf_le (doc : Document)
    (hlt : ∀ r p : Nat, parentOf doc r = some p → p < r) (fuel r x : Nat)
    (hx : x ∈ ancestorsOrSelf doc fuel r) : x ≤ r := by
  induction fuel generalizing r with
  | zero => simp [ancestorsOrSelf] at hx
  | succ fuel ih =>
    rw [ancestorsOrSelf_succ] at hx
    rcases List.mem_cons.mp hx with hx | hx
    · exact Nat.le_of_eq hx
    · rcases hp : parentOf doc r with _ | p
      · simp [hp] at hx
      · simp only [hp] at hx
        exact Nat.le_trans (ih p hx) (Nat.le_of_lt (hlt r p hp))

theorem ancestorsOrSelf_fuel (doc : Document)
    (hlt : ∀ r p : Nat, parentOf doc r = some p → p < r) (f1 f2 r : Nat)
    (h1 : r < f1) (h2 : r < f2) :
    ancestorsOrSelf doc f1 r = ancestorsOrSelf doc f2 r := by
  induction f1 generalizing f2 r with
  | zero => omega
  | succ f1 ih =>
    cases f2 with
    | zero => omega
    | succ f2 =>
      rw [ancestorsOrSelf_succ, ancestorsOrSelf_succ]
      rcases hp : parentOf doc r with _ | p
      · rfl
      · have hpr : p < r := hlt r p hp
        simp only [List.cons.injEq, true_and]
        exact ih f2 p (by omega) (by omega)

theorem ancestorsOrSelf_split (doc : Document)
    (hlt : ∀ r p : Nat, parentOf doc r = some p → p < r) (fuel t m : Nat)
    (ht : t < fuel) (hm : m ∈ ancestorsOrSelf doc fuel t) :
    ∃ pre, ancestorsOrSelf doc fuel t = pre ++ ancestorsOrSelf doc (m + 1) m ∧
      ∀ x ∈ pre, m < x := by
  induction fuel generalizing t with
  | zero => omega
  | succ fuel ih =>
    by_cases htm : m = t
    · subst htm
      exact ⟨[], by simpa using ancestorsOrSelf_fuel doc hlt _ _ m ht (by omega),
        by simp⟩
    · rw [ancestorsOrSelf_succ] at hm
      rw [ancestorsOrSelf_succ doc fuel t]
      rcases List.mem_cons.mp hm with hm | hm
      · exact absurd hm htm
      · rcases hp : parentOf doc t with _ | p
        · simp [hp] at hm
        · simp only [hp] at hm ⊢
          have hpt : p < t := hlt t p hp
          obtain ⟨pre, hsplit, hpre⟩ := ih p (by omega) hm
          have hmp : m ≤ p := ancestorsOrSelf_le doc hlt fuel p m hm
          refine ⟨t :: pre, by rw [hsplit]; rfl, ?_⟩
          intro x hx
          rcases List.mem_cons.mp hx with hx | hx
          · omega
          · exact hpre x hx

/-- In a well-formed document, the propagation path of a click that reaches
element `m` is: objects strictly inside `m`, then `m`, then the proper
ancestors of `m`; and no proper ancestor of `m` occurs before them. -/
theorem eventPath_split (doc : Document) (hwf : wellFormed doc = true) (t m : Nat)
    (h : Target.element m ∈ eventPath doc (.element t)) :
    ∃ pre, eventPath doc (.element t)
        = pre ++ .element m :: (eventPath doc (.element m)).tail ∧
      ∀ a ∈ (eventPath doc (.element m)).tail, a ∉ pre ∧ a ≠ .element m := by
  have hlt := parent_lt_of_wellFormed doc hwf
  have hm : m ∈ ancestorsOrSelf doc (t + 1) t := by
    simpa [eventPath] using h
  obtain ⟨pre, hsplit, hpre⟩ := ancestorsOrSelf_split doc hlt (t + 1) t m (by omega) hm
  have hhead : ancestorsOrSelf doc (m + 1) m
      = m :: (ancestorsOrSelf doc (m + 1) m).tail := rfl
  have htail : ∀ x ∈ (ancestorsOrSelf doc (m + 1) m).tail, x < m := by
    intro x hx
    rw [ancestorsOrSelf_succ, List.tail_cons] at hx
    rcases hp : parentOf doc m with _ | p
    · simp [hp] at hx
    · simp only [hp] at hx
      exact Nat.lt_of_le_of_lt (ancestorsOrSelf_le doc hlt m p x hx) (hlt m p hp)
  have hpathm : (eventPath doc (.element m)).tail
      = (ancestorsOrSelf doc (m + 1) m).tail.map .element ++ [.document] := by
    simp only [eventPath]
    rw [hhead]
    simp
  refine ⟨pre.map .element, ?_, ?_⟩
  · rw [hpathm]
    simp only [eventPath, hsplit]
    rw [hhead]
    simp
  · intro a ha
    rw [hpathm] at ha
    simp only [List.mem_append, List.mem_map, List.mem_singleton] at ha
    rcases ha with ⟨x, hx, rfl⟩ | rfl
    · have hxm : x < m := htail x hx
      constructor
      · simp only [List.mem_map, not_exists, not_and]
        intro y hy hyx
        have hyx1 : y = x := by simpa using hyx
        have hmy : m < y := hpre y hy
        rw [hyx1] at hmy
        omega
      · intro hxe
        have hxe1 : x = m := by simpa using hxe
        rw [hxe1] at hxm
        omega
    · constructor
      · simp
      · simp

/-! ## Pages on which the feature is inert -/

theorem contentLoaded_inert (w : World) (h : Inert w.doc) :
    contentLoaded w = .ok (.undefined, w) := by
  rcases h with h | h
  · exact contentLoaded_no_overlay w h
  · exact contentLoaded_no_content w h

theorem invoke_inert (fn : Fn) (cur : Target) (e : Event) (w : World) (h : Inert w.doc) :
    ∃ e1 w1, invoke fn cur e w = .ok (.undefined, e1, w1) ∧
      w1.doc = w.doc ∧ w1.listeners = w.listeners ∧ w1.nextFn = w.nextFn := by
  unfold invoke
  rcases hcode : fn.code with _ | ⟨modal, content⟩ | tag
  · exact ⟨e, w, by simp [contentLoaded_inert w h], rfl, rfl, rfl⟩
  · rcases modalClick_cases modal content e with ⟨_, h1⟩ | ⟨_, h1⟩
    · exact ⟨e, w, by simp [h1], rfl, rfl, rfl⟩
    · exact ⟨e.stopPropagation, w, by simp [h1], rfl, rfl, rfl⟩
  · exact ⟨e, _, rfl, rfl, rfl, rfl⟩

theorem runListeners_inert (cur : Target) (regs : List Registration) (e : Event)
    (w : World) (h : Inert w.doc) :
    ∃ e1 w1, runListeners cur regs e w = .ok (e1, w1) ∧
      w1.doc = w.doc ∧ w1.listeners = w.listeners ∧ w1.nextFn = w.nextFn := by
  induction regs generalizing e w with
  | nil => exact ⟨e, w, rfl, rfl, rfl, rfl⟩
  | cons reg regs ih =>
    unfold runListeners
    split
    · obtain ⟨e1, w1, hinv, hdoc, hl, hn⟩ := invoke_inert reg.fn cur e w h
      obtain ⟨e2, w2, hrun, hdoc2, hl2, hn2⟩ := ih e1 w1 (hdoc ▸ h)
      exact ⟨e2, w2, by simp [hinv, hrun], hdoc2.trans hdoc, hl2.trans hl, hn2.trans hn⟩
    · exact ih e w h

theorem propagate_inert (path : List Target) (e : Event) (w : World) (h : Inert w.doc) :
    ∃ e1 w1, propagate path e w = .ok (e1, w1) ∧
      w1.doc = w.doc ∧ w1.listeners = w.listeners ∧ w1.nextFn = w.nextFn := by
  induction path generalizing e w with
  | nil => exact ⟨e, w, rfl, rfl, rfl, rfl⟩
  | cons cur rest ih =>
    obtain ⟨e1, w1, hrun, hdoc, hl, hn⟩ := runListeners_inert cur w.listeners e w h
    unfold propagate
    by_cases hs : e1.propagationStopped = true
    · exact ⟨e1, w1, by simp [hrun, hs], hdoc, hl, hn⟩
    · obtain ⟨e2, w2, hprop, hdoc2, hl2, hn2⟩ := ih e1 w1 (hdoc ▸ h)
      exact ⟨e2, w2, by simp [hrun, hs, hprop], hdoc2.trans hdoc, hl2.trans hl,
        hn2.trans hn⟩

theorem initialise_inert (w : World) (h : Inert w.doc) :
    ∃ w1, initialise w = .ok w1 ∧ w1.doc = w.doc ∧
      w1.listeners = (script w).listeners ∧ w1.nextFn = w.nextFn + 1 := by
  have hdoc : (script w).doc = w.doc := by
    unfold script; rw [addEventListener_doc]
  have hnext : (script w).nextFn = w.nextFn + 1 := by
    unfold script; rw [addEventListener_nextFn]
  obtain ⟨e1, w1, hprop, hd, hl, hn⟩ :=
    propagate_inert (eventPath (script w).doc .document)
      (Event.fresh "DOMContentLoaded" .document) (script w) (hdoc ▸ h)
  refine ⟨w1, ?_, hd.trans hdoc, hl, hn.trans hnext⟩
  simp [initialise, dispatchEvent, hprop]

/-! ## Function identities stay fresh -/

theorem fresh_init (doc : Document) : (World.init doc).Fresh := by
  intro reg hreg
  simp [World.init] at hreg

theorem fresh_register (t : Target) (type : String) (code : Code) (w : World)
    (h : w.Fresh) :
    (addEventListener t type ⟨w.nextFn, code⟩ { w with nextFn := w.nextFn + 1 }).Fresh := by
  intro reg hreg
  unfold addEventListener at hreg ⊢
  split at hreg
  · rw [if_pos (by assumption)]
    exact Nat.lt_succ_of_lt (h reg hreg)
  · rw [if_neg (by assumption)]
    simp only [List.mem_append, List.mem_singleton] at hreg
    rcases hreg with hreg | hreg
    · exact Nat.lt_succ_of_lt (h reg hreg)
    · subst hreg
      exact Nat.lt_succ_self _

theorem fresh_script (w : World) (h : w.Fresh) : (script w).Fresh :=
  fresh_register _ _ _ w h

theorem fresh_observe (t : Target) (tag : Nat) (w : World) (h : w.Fresh) :
    (observe t tag w).Fresh :=
  fresh_register _ _ _ w h

theorem fresh_contentLoaded (w w1 : World) (r : ReturnValue) (h : w.Fresh)
    (hrun : contentLoaded w = .ok (r, w1)) : w1.Fresh := by
  rcases hm : getElementById w.doc "markdown" with _ | m
  · rw [contentLoaded_no_overlay w hm] at hrun
    simp only [Except.ok.injEq, Prod.mk.injEq] at hrun
    exact hrun.2 ▸ h
  · rcases hc : getElementById w.doc "markdown-container" with _ | c
    · rw [contentLoaded_no_content w hc] at hrun
      simp only [Except.ok.injEq, Prod.mk.injEq] at hrun
      exact hrun.2 ▸ h
    · rw [contentLoaded_both w m c hm hc] at hrun
      simp only [Except.ok.injEq, Prod.mk.injEq] at hrun
      exact hrun.2 ▸ fresh_register _ _ _ w h

theorem fresh_invoke (fn : Fn) (cur : Target) (e e1 : Event) (w w1 : World)
    (r : ReturnValue) (h : w.Fresh) (hrun : invoke fn cur e w = .ok (r, e1, w1)) :
    w1.Fresh := by
  unfold invoke at hrun
  rcases hcode : fn.code with _ | ⟨modal, content⟩ | tag
  · obtain ⟨w2, hw2, _⟩ := contentLoaded_total w
    simp only [hcode, hw2, Except.ok.injEq, Prod.mk.injEq] at hrun
    exact hrun.2.2 ▸ fresh_contentLoaded w w2 _ h hw2
  · rcases modalClick_cases modal content e with ⟨_, h1⟩ | ⟨_, h1⟩ <;>
    · simp only [hcode, h1, Except.ok.injEq, Prod.mk.injEq] at hrun
      exact hrun.2.2 ▸ h
  · simp only [hcode, Except.ok.injEq, Prod.mk.injEq] at hrun
    exact hrun.2.2 ▸ h

theorem fresh_runListeners (cur : Target) (regs : List Registration) (e e1 : Event)
    (w w1 : World) (h : w.Fresh) (hrun : runListeners cur regs e w = .ok (e1, w1)) :
    w1.Fresh := by
  induction regs generalizing e w with
  | nil =>
    simp only [runListeners, Except.ok.injEq, Prod.mk.injEq] at hrun
    exact hrun.2 ▸ h
  | cons reg regs ih =>
    unfold runListeners at hrun
    split at hrun
    · obtain ⟨e2, w2, hinv, _⟩ := invoke_step reg.fn cur e w
      simp only [hinv] at hrun
      exact ih e2 w2 (fresh_invoke _ _ _ _ _ _ _ h hinv) hrun
    · exact ih e w h hrun

theorem fresh_propagate (path : List Target) (e e1 : Event) (w w1 : World)
    (h : w.Fresh) (hrun : propagate path e w = .ok (e1, w1)) : w1.Fresh := by
  induction path generalizing e w with
  | nil =>
    simp only [propagate, Except.ok.injEq, Prod.mk.injEq] at hrun
    exact hrun.2 ▸ h
  | cons cur rest ih =>
    obtain ⟨e2, w2, hrl, _⟩ := runListeners_step cur w.listeners e w
    have h2 := fresh_runListeners cur _ e e2 w w2 h hrl
    unfold propagate at hrun
    simp only [hrl] at hrun
    split at hrun
    · simp only [Except.ok.injEq, Prod.mk.injEq] at hrun
      exact hrun.2 ▸ h2
    · exact ih e2 w2 h2 hrun

/-- Function identities stay fresh across every event dispatch. -/
theorem fresh_dispatchEvent (w w1 : World) (type : String) (target : Target) (e1 : Event)
    (h : w.Fresh) (hrun : dispatchEvent w type target = .ok (e1, w1)) : w1.Fresh :=
  fresh_propagate _ _ _ _ _ h hrun

/-! ## The click handler on the overlay -/

theorem invoke_modalClick_on_overlay (i : Nat) (m : NodeRef) (content : Option Target)
    (cur : Target) (e : Event) (w : World) (h : e.target = .element m) :
    invoke ⟨i, .modalClick (some (.element m)) content⟩ cur e w = .ok (.undefined, e, w) := by
  simp [invoke, modalClick, h]

theorem invoke_modalClick_off_overlay (i : Nat) (m : NodeRef) (content : Option Target)
    (cur : Target) (e : Event) (w : World) (h : e.target ≠ .element m) :
    invoke ⟨i, .modalClick (some (.element m)) content⟩ cur e w
      = .ok (.undefined, e.stopPropagation, w) := by
  have hne : some e.target ≠ some (Target.element m) := fun h1 => h (Option.some.inj h1)
  simp [invoke, modalClick, hne]

theorem stopPropagation_ne (e : Event) : e.stopPropagation ≠ e := by
  intro h
  have h1 := congrArg Event.stopPropagationCalls h
  simp [Event.stopPropagation] at h1

/-- The two looked-up elements are different elements. -/
theorem overlay_ne_content (doc : Document) (m c : NodeRef)
    (hm : getElementById doc "markdown" = some m)
    (hc : getElementById doc "markdown-container" = some c) : m ≠ c := by
  intro h
  have h1 := getElementById_idOf doc _ m hm
  have h2 := getElementById_idOf doc _ c hc
  rw [h, h2] at h1
  exact absurd (Option.some.inj h1) (by decide)

/-! ## The claims -/

/-- C1, counterexample: in the document `<div id="modal"><div
id="markdown-container"><button id="inner">` the script finds no element with
identifier `markdown`, attaches nothing, and a click on `#inner` is observed
by the listeners on `body` and on the document; `stopPropagation` is not
called. -/
theorem modal_id_click_reaches_document :
    wellFormed docModal = true ∧
    idOf docModal 2 = some "modal" ∧
    idOf docModal 3 = some "markdown-container" ∧
    idOf docModal 4 = some "inner" ∧
    (initialise (pageWithObservers docModal)).map (clickListenersOn (.element 2)) = .ok [] ∧
    outcome (clickAfterInit (pageWithObservers docModal) (.element 4))
      = .ok (false, 0, [⟨2, .element 1⟩, ⟨1, .document⟩]) := by
  decide

/-- C1, amended: in the document `<div id="markdown"><div
id="markdown-container"><button id="inner">`, after the script is loaded and
the content-loaded signal has fired once, a click on `#inner` makes the
overlay's handler call `stopPropagation` once, propagation is stopped, and the
listeners on `body` and on the document observe nothing. -/
theorem markdown_id_click_stopped :
    wellFormed docMarkdown = true ∧
    idOf docMarkdown 2 = some "markdown" ∧
    idOf docMarkdown 3 = some "markdown-container" ∧
    idOf docMarkdown 4 = some "inner" ∧
    (initialise (pageWithObservers docMarkdown)).map (clickListenersOn (.element 2))
      = .ok [⟨3, .modalClick (some (.element 2)) (some (.element 3))⟩] ∧
    outcome (clickAfterInit (pageWithObservers docMarkdown) (.element 4))
      = .ok (true, 1, []) := by
  decide

/-- C2, counterexample: in a document holding an element with identifier
`modal`, one with identifier `markdown` and one with identifier
`markdown-container`, the click listener is attached to the element whose
identifier is `markdown`, and none to the element whose identifier is
`modal`. -/
theorem listener_not_on_modal_id :
    wellFormed docBoth = true ∧
    idOf docBoth 2 = some "modal" ∧
    idOf docBoth 3 = some "markdown" ∧
    contentLoaded (World.init docBoth) = .ok (.undefined,
      ⟨docBoth, [⟨.element 3, "click",
        ⟨0, .modalClick (some (.element 3)) (some (.element 4))⟩⟩], 1, []⟩) := by
  decide

/-- C2, amended: the initialisation looks up the overlay by the identifier
`markdown` and the content container by the identifier `markdown-container`:
whenever a run of the content-loaded handler adds a listener, it is a click
listener on the first element in document order whose identifier is
`markdown`, and the document also has an element whose identifier is
`markdown-container`. -/
theorem listener_attached_to_markdown (w w1 : World) (r : ReturnValue)
    (reg : Registration) (hrun : contentLoaded w = .ok (r, w1))
    (hnew : reg ∈ w1.listeners) (hold : reg ∉ w.listeners) :
    ∃ m c, reg.target = .element m ∧ reg.type = "click" ∧
      reg.fn.code = .modalClick (some (.element m)) (some (.element c)) ∧
      getElementById w.doc "markdown" = some m ∧
      idOf w.doc m = some "markdown" ∧
      (∀ j, j < m → idOf w.doc j ≠ some "markdown") ∧
      getElementById w.doc "markdown-container" = some c ∧
      idOf w.doc c = some "markdown-container" := by
  rcases hm : getElementById w.doc "markdown" with _ | m
  · rw [contentLoaded_no_overlay w hm] at hrun
    have hw : w = w1 := by
      simp only [Except.ok.injEq, Prod.mk.injEq] at hrun
      exact hrun.2
    exact absurd (hw ▸ hnew) hold
  · rcases hc : getElementById w.doc "markdown-container" with _ | c
    · rw [contentLoaded_no_content w hc] at hrun
      have hw : w = w1 := by
        simp only [Except.ok.injEq, Prod.mk.injEq] at hrun
        exact hrun.2
      exact absurd (hw ▸ hnew) hold
    · rw [contentLoaded_both w m c hm hc] at hrun
      have hw : addEventListener (.element m) "click"
          ⟨w.nextFn, .modalClick (some (.element m)) (some (.element c))⟩
          { w with nextFn := w.nextFn + 1 } = w1 := by
        simp only [Except.ok.injEq, Prod.mk.injEq] at hrun
        exact hrun.2
      rw [← hw] at hnew
      unfold addEventListener at hnew
      split at hnew
      · exact absurd hnew hold
      · simp only [List.mem_append, List.mem_singleton] at hnew
        rcases hnew with hnew | hnew
        · exact absurd hnew hold
        · subst hnew
          exact ⟨m, c, rfl, rfl, rfl, rfl, getElementById_idOf _ _ m hm,
            getElementById_first _ _ m hm, rfl, getElementById_idOf _ _ c hc⟩

/-- C2, amended, at the document with `modal`, `markdown` and
`markdown-container`. -/
theorem listener_attached_to_markdown_witness :
    contentLoaded (World.init docBoth) = .ok (.undefined,
      ⟨docBoth, [⟨.element 3, "click",
        ⟨0, .modalClick (some (.element 3)) (some (.element 4))⟩⟩], 1, []⟩) ∧
    ∃ m c, (Target.element 3) = .element m ∧ "click" = "click" ∧
      Code.modalClick (some (.element 3)) (some (.element 4))
        = .modalClick (some (.element m)) (some (.element c)) ∧
      getElementById docBoth "markdown" = some m ∧
      idOf docBoth m = some "markdown" ∧
      (∀ j, j < m → idOf docBoth j ≠ some "markdown") ∧
      getElementById docBoth "markdown-container" = some c ∧
      idOf docBoth c = some "markdown-container" :=
  ⟨by decide,
   listener_attached_to_markdown (World.init docBoth)
    ⟨docBoth, [⟨.element 3, "click",
      ⟨0, .modalClick (some (.element 3)) (some (.element 4))⟩⟩], 1, []⟩
    .undefined
    ⟨.element 3, "click", ⟨0, .modalClick (some (.element 3)) (some (.element 4))⟩⟩
    (by decide) (by decide) (by decide)⟩

/-- C3: when both looked-up elements exist and the content-loaded handler has
run, the registered overlay handler leaves every event whose target is the
overlay exactly as it was (no `stopPropagation` call, flag unchanged); and on
a page whose other click listeners only observe, a click on the overlay ends
with propagation not stopped and every observer on the overlay or on an
ancestor of it receives the click. -/
theorem overlay_click_not_stopped (w : World) (m c : NodeRef)
    (hm : getElementById w.doc "markdown" = some m)
    (hc : getElementById w.doc "markdown-container" = some c)
    (hfresh : w.Fresh) :
    ∃ w1 fn, contentLoaded w = .ok (.undefined, w1) ∧
      w1.listeners = w.listeners ++ [⟨.element m, "click", fn⟩] ∧
      (∀ e cur w2, e.target = .element m →
        invoke fn cur e w2 = .ok (.undefined, e, w2)) ∧
      ((∀ reg ∈ w.listeners, reg.type = "click" → reg.fn.code.isObserver = true) →
        ∃ w2, dispatchEvent w1 "click" (.element m)
            = .ok (Event.fresh "click" (.element m), w2) ∧
          ∀ a ∈ eventPath w.doc (.element m), ∀ i tag,
            ⟨a, "click", ⟨i, .observer tag⟩⟩ ∈ w.listeners →
            ∃ new, w2.log = w1.log ++ new ∧ ⟨tag, a⟩ ∈ new) := by
  refine ⟨_, ⟨w.nextFn, .modalClick (some (.element m)) (some (.element c))⟩,
    contentLoaded_both_fresh w m c hm hc hfresh, rfl, ?_, ?_⟩
  · intro e cur w2 he
    exact invoke_modalClick_on_overlay _ m _ cur e w2 he
  · intro hpage
    refine ⟨_, propagate_passes _ _ _ ?_ rfl rfl, ?_⟩
    · intro reg hreg htype
      simp only [List.mem_append, List.mem_singleton] at hreg
      rcases hreg with hreg | hreg
      · have hobs := hpage reg hreg htype
        rcases hcode : reg.fn.code with _ | ⟨modal, content⟩ | tag
        · simp [hcode, Code.isObserver] at hobs
        · simp [hcode, Code.isObserver] at hobs
        · exact Or.inl ⟨tag, rfl⟩
      · subst hreg
        exact Or.inr ⟨_, rfl⟩
    · intro a ha i tag hobs
      refine ⟨_, rfl, ?_⟩
      simp only [pathObservations, List.mem_flatMap]
      exact ⟨a, ha, mem_observations a "click" _ i tag (List.mem_append_left _ hobs)⟩

/-- C3 at the page with observers on `body` and the document, over the
document `<div id="markdown"><div id="markdown-container"><button id="inner">`. -/
theorem overlay_click_not_stopped_witness :
    (getElementById (pageReady docMarkdown).doc "markdown" = some 2 ∧
     getElementById (pageReady docMarkdown).doc "markdown-container" = some 3 ∧
     (pageReady docMarkdown).Fresh ∧
     (∀ reg ∈ (pageReady docMarkdown).listeners, reg.type = "click" →
          reg.fn.code.isObserver = true) ∧
     Target.element 1 ∈ eventPath (pageReady docMarkdown).doc (.element 2) ∧
     Target.document ∈ eventPath (pageReady docMarkdown).doc (.element 2) ∧
     (⟨.element 1, "click", ⟨1, .observer 2⟩⟩ : Registration)
       ∈ (pageReady docMarkdown).listeners ∧
     (⟨.document, "click", ⟨0, .observer 1⟩⟩ : Registration)
       ∈ (pageReady docMarkdown).listeners) ∧
    ∃ w1 fn, contentLoaded (pageReady docMarkdown) = .ok (.undefined, w1) ∧
      w1.listeners = (pageReady docMarkdown).listeners ++ [⟨.element 2, "click", fn⟩] ∧
      (∀ e cur w2, e.target = .element 2 →
        invoke fn cur e w2 = .ok (.undefined, e, w2)) ∧
      ((∀ reg ∈ (pageReady docMarkdown).listeners, reg.type = "click" →
          reg.fn.code.isObserver = true) →
        ∃ w2, dispatchEvent w1 "click" (.element 2)
            = .ok (Event.fresh "click" (.element 2), w2) ∧
          ∀ a ∈ eventPath (pageReady docMarkdown).doc (.element 2), ∀ i tag,
            ⟨a, "click", ⟨i, .observer tag⟩⟩ ∈ (pageReady docMarkdown).listeners →
            ∃ new, w2.log = w1.log ++ new ∧ ⟨tag, a⟩ ∈ new) :=
  ⟨by decide,
   overlay_click_not_stopped (pageReady docMarkdown) 2 3 (by decide) (by decide)
    (by decide)⟩

/-- A click whose target is an element other than the overlay: the registered
overlay handler calls `stopPropagation` on it, and when the click reaches the
overlay the dispatch ends with propagation stopped and nothing is observed on
a proper ancestor of the overlay. -/
theorem off_overlay_click_stopped (w : World) (m c t : NodeRef)
    (hwf : wellFormed w.doc = true)
    (hm : getElementById w.doc "markdown" = some m)
    (hc : getElementById w.doc "markdown-container" = some c)
    (hfresh : w.Fresh)
    (hne : t ≠ m) :
    ∃ w1 fn, contentLoaded w = .ok (.undefined, w1) ∧
      w1.listeners = w.listeners ++ [⟨.element m, "click", fn⟩] ∧
      (∀ e cur w2, e.target = .element t →
        invoke fn cur e w2 = .ok (.undefined, e.stopPropagation, w2) ∧
        e.stopPropagation.propagationStopped = true) ∧
      (Target.element m ∈ eventPath w.doc (.element t) →
        ∃ e1 w2, dispatchEvent w1 "click" (.element t) = .ok (e1, w2) ∧
          e1.propagationStopped = true ∧
          ∀ a ∈ (eventPath w.doc (.element m)).tail, ∀ o ∈ w2.log,
            o.at_ = a → o ∈ w1.log) := by
  refine ⟨_, ⟨w.nextFn, .modalClick (some (.element m)) (some (.element c))⟩,
    contentLoaded_both_fresh w m c hm hc hfresh, rfl, ?_, ?_⟩
  · intro e cur w2 he
    refine ⟨invoke_modalClick_off_overlay _ m _ cur e w2 ?_, rfl⟩
    rw [he]
    intro h
    exact hne (Target.element.inj h)
  · intro hreach
    obtain ⟨pre, hsplit, hpre⟩ := eventPath_split w.doc hwf t m hreach
    have hreg : (⟨.element m, "click",
        ⟨w.nextFn, .modalClick (some (.element m)) (some (.element c))⟩⟩ : Registration)
        ∈ w.listeners ++ [⟨.element m, "click",
          ⟨w.nextFn, .modalClick (some (.element m)) (some (.element c))⟩⟩] := by simp
    have htarget : (Event.fresh "click" (.element t)).target ≠ .element m := by
      intro h
      exact hne (Target.element.inj h)
    obtain ⟨e1, w2, hfull, hcut, hstopped⟩ :=
      propagate_stops_at_overlay m w.nextFn (some (.element c)) pre
        (eventPath w.doc (.element m)).tail (Event.fresh "click" (.element t))
        { w with
          listeners := w.listeners ++ [⟨.element m, "click",
            ⟨w.nextFn, .modalClick (some (.element m)) (some (.element c))⟩⟩],
          nextFn := w.nextFn + 1 } hreg rfl htarget rfl
    refine ⟨e1, w2, ?_, hstopped, ?_⟩
    · show propagate (eventPath w.doc (.element t)) _ _ = _
      rw [hsplit]
      exact hfull
    · intro a ha o ho hat
      obtain ⟨e1a, w2a, hcut1, hstep⟩ := propagate_step (pre ++ [.element m])
        (Event.fresh "click" (.element t))
        { w with
          listeners := w.listeners ++ [⟨.element m, "click",
            ⟨w.nextFn, .modalClick (some (.element m)) (some (.element c))⟩⟩],
          nextFn := w.nextFn + 1 }
      rw [hcut] at hcut1
      simp only [Except.ok.injEq, Prod.mk.injEq] at hcut1
      obtain ⟨_, hw⟩ := hcut1
      subst hw
      rcases hstep.log_new o ho with hlog | hvis
      · exact hlog
      · exfalso
        rw [hat] at hvis
        simp only [List.mem_append, List.mem_singleton] at hvis
        rcases hvis with hvis | hvis
        · exact (hpre a ha).1 hvis
        · exact (hpre a ha).2 hvis

/-- In a well-formed document where the overlay is an ancestor of the content
container, an element that is the content container or a descendant of it is
not the overlay, and the overlay lies on its propagation path. -/
theorem inside_content_reaches_overlay (doc : Document) (hwf : wellFormed doc = true)
    (m c t : Nat) (hmc : m ≠ c)
    (hanc : m ∈ ancestorsOrSelf doc (c + 1) c)
    (hin : c ∈ ancestorsOrSelf doc (t + 1) t) :
    t ≠ m ∧ Target.element m ∈ eventPath doc (.element t) := by
  have hlt := parent_lt_of_wellFormed doc hwf
  have hmle : m ≤ c := ancestorsOrSelf_le doc hlt (c + 1) c m hanc
  have hcle : c ≤ t := ancestorsOrSelf_le doc hlt (t + 1) t c hin
  obtain ⟨pre, hsplit, _⟩ := ancestorsOrSelf_split doc hlt (t + 1) t c (by omega) hin
  constructor
  · omega
  · have hmem : m ∈ ancestorsOrSelf doc (t + 1) t := by
      rw [hsplit]
      exact List.mem_append_right _ hanc
    simp only [eventPath, List.mem_append, List.mem_map, List.mem_singleton]
    exact Or.inl ⟨m, hmem, rfl⟩

/-- C4: when both looked-up elements exist, the overlay being an ancestor of
the content container, and the content-loaded handler has run, the registered
overlay handler calls `stopPropagation` on every event whose target is the
content container or a descendant of it; the click is delivered to the
overlay, the dispatch ends with propagation stopped, and no listener on a
proper ancestor of the overlay receives the event. -/
theorem content_click_stopped (w : World) (m c t : NodeRef)
    (hwf : wellFormed w.doc = true)
    (hm : getElementById w.doc "markdown" = some m)
    (hc : getElementById w.doc "markdown-container" = some c)
    (hfresh : w.Fresh)
    (hanc : m ∈ ancestorsOrSelf w.doc (c + 1) c)
    (hin : c ∈ ancestorsOrSelf w.doc (t + 1) t) :
    ∃ w1 fn, contentLoaded w = .ok (.undefined, w1) ∧
      w1.listeners = w.listeners ++ [⟨.element m, "click", fn⟩] ∧
      (∀ e cur w2, e.target = .element t →
        invoke fn cur e w2 = .ok (.undefined, e.stopPropagation, w2) ∧
        e.stopPropagation.propagationStopped = true) ∧
      Target.element m ∈ eventPath w.doc (.element t) ∧
      ∃ e1 w2, dispatchEvent w1 "click" (.element t) = .ok (e1, w2) ∧
        e1.propagationStopped = true ∧
        ∀ a ∈ (eventPath w.doc (.element m)).tail, ∀ o ∈ w2.log,
          o.at_ = a → o ∈ w1.log := by
  obtain ⟨hne, hreach⟩ := inside_content_reaches_overlay w.doc hwf m c t
    (overlay_ne_content w.doc m c hm hc) hanc hin
  obtain ⟨w1, fn, hrun, hl, hcall, hdisp⟩ :=
    off_overlay_click_stopped w m c t hwf hm hc hfresh hne
  exact ⟨w1, fn, hrun, hl, hcall, hreach, hdisp hreach⟩

/-- C4 at a click on `#inner` in the document `<div id="markdown"><div
id="markdown-container"><button id="inner">`, with observers on `body` and on
the document. -/
theorem content_click_stopped_witness :
    (wellFormed (pageReady docMarkdown).doc = true ∧
     getElementById (pageReady docMarkdown).doc "markdown" = some 2 ∧
     getElementById (pageReady docMarkdown).doc "markdown-container" = some 3 ∧
     (pageReady docMarkdown).Fresh ∧
     2 ∈ ancestorsOrSelf (pageReady docMarkdown).doc (3 + 1) 3 ∧
     3 ∈ ancestorsOrSelf (pageReady docMarkdown).doc (4 + 1) 4) ∧
    ∃ w1 fn, contentLoaded (pageReady docMarkdown) = .ok (.undefined, w1) ∧
      w1.listeners = (pageReady docMarkdown).listeners ++ [⟨.element 2, "click", fn⟩] ∧
      (∀ e cur w2, e.target = .element 4 →
        invoke fn cur e w2 = .ok (.undefined, e.stopPropagation, w2) ∧
        e.stopPropagation.propagationStopped = true) ∧
      Target.element 2 ∈ eventPath (pageReady docMarkdown).doc (.element 4) ∧
      ∃ e1 w2, dispatchEvent w1 "click" (.element 4) = .ok (e1, w2) ∧
        e1.propagationStopped = true ∧
        ∀ a ∈ (eventPath (pageReady docMarkdown).doc (.element 2)).tail, ∀ o ∈ w2.log,
          o.at_ = a → o ∈ w1.log :=
  ⟨by decide,
   content_click_stopped (pageReady docMarkdown) 2 3 4 (by decide) (by decide)
    (by decide) (by decide) (by decide) (by decide)⟩

/-- C5: when no element has the overlay's identifier, whether or not the
content container exists, the content-loaded handler completes without error,
returns nothing and leaves the page as it was; loading the script and firing
the content-loaded signal completes without error and the listeners are those
present once the script was loaded, so no click listener is attached. -/
theorem no_overlay_no_listener (w : World)
    (h : getElementById w.doc "markdown" = none) :
    contentLoaded w = .ok (.undefined, w) ∧
    ∃ w1, initialise w = .ok w1 ∧ w1.doc = w.doc ∧
      w1.listeners = (script w).listeners ∧
      ∀ t, clickListenersOn t w1 = clickListenersOn t w := by
  refine ⟨contentLoaded_no_overlay w h, ?_⟩
  obtain ⟨w1, hinit, hdoc, hl, _⟩ := initialise_inert w (Or.inl h)
  refine ⟨w1, hinit, hdoc, hl, ?_⟩
  intro t
  unfold clickListenersOn
  rw [hl]
  unfold script addEventListener
  split
  · rfl
  · simp

/-- C5 at the document `<div id="markdown-container"></div>`, with observers
on `body` and on the document. -/
theorem no_overlay_no_listener_witness :
    getElementById (pageWithObservers docNoOverlay).doc "markdown" = none ∧
    (contentLoaded (pageWithObservers docNoOverlay)
      = .ok (.undefined, pageWithObservers docNoOverlay) ∧
     ∃ w1, initialise (pageWithObservers docNoOverlay) = .ok w1 ∧
      w1.doc = (pageWithObservers docNoOverlay).doc ∧
      w1.listeners = (script (pageWithObservers docNoOverlay)).listeners ∧
      ∀ t, clickListenersOn t w1 = clickListenersOn t (pageWithObservers docNoOverlay)) :=
  ⟨by decide, no_overlay_no_listener (pageWithObservers docNoOverlay) (by decide)⟩

/-- C6: when no element has the content container's identifier, even if the
overlay exists, the content-loaded handler completes without error, returns
nothing and leaves the page as it was; loading the script and firing the
content-loaded signal completes without error and attaches no click listener,
in particular none to the overlay. -/
theorem no_content_no_listener (w : World)
    (h : getElementById w.doc "markdown-container" = none) :
    contentLoaded w = .ok (.undefined, w) ∧
    ∃ w1, initialise w = .ok w1 ∧ w1.doc = w.doc ∧
      w1.listeners = (script w).listeners ∧
      ∀ t, clickListenersOn t w1 = clickListenersOn t w := by
  refine ⟨contentLoaded_no_content w h, ?_⟩
  obtain ⟨w1, hinit, hdoc, hl, _⟩ := initialise_inert w (Or.inr h)
  refine ⟨w1, hinit, hdoc, hl, ?_⟩
  intro t
  unfold clickListenersOn
  rw [hl]
  unfold script addEventListener
  split
  · rfl
  · simp

/-- C6 at the document `<div id="markdown"></div>`, with observers on `body`
and on the document. -/
theorem no_content_no_listener_witness :
    (getElementById (pageWithObservers docNoContent).doc "markdown-container" = none ∧
     getElementById (pageWithObservers docNoContent).doc "markdown" = some 2) ∧
    (contentLoaded (pageWithObservers docNoContent)
      = .ok (.undefined, pageWithObservers docNoContent) ∧
     ∃ w1, initialise (pageWithObservers docNoContent) = .ok w1 ∧
      w1.doc = (pageWithObservers docNoContent).doc ∧
      w1.listeners = (script (pageWithObservers docNoContent)).listeners ∧
      ∀ t, clickListenersOn t w1 = clickListenersOn t (pageWithObservers docNoContent)) :=
  ⟨by decide, no_content_no_listener (pageWithObservers docNoContent) (by decide)⟩

/-- C7, counterexample: in the document `<div id="markdown"><div
id="markdown-container"><button id="inner">`, after the content-loaded signal
has fired once the overlay carries one click listener, after it has fired
twice it carries two, and a single click on `#inner` then results in two
`stopPropagation` calls. -/
theorem double_initialisation_two_calls :
    (initialise (World.init docMarkdown)).map (clickListenersOn (.element 2))
      = .ok [⟨1, .modalClick (some (.element 2)) (some (.element 3))⟩] ∧
    (initialiseTwice (World.init docMarkdown)).map (clickListenersOn (.element 2))
      = .ok [⟨1, .modalClick (some (.element 2)) (some (.element 3))⟩,
             ⟨2, .modalClick (some (.element 2)) (some (.element 3))⟩] ∧
    outcome (clickAfterInit (World.init docMarkdown) (.element 4)) = .ok (true, 1, []) ∧
    outcome (clickAfterInitTwice (World.init docMarkdown) (.element 4))
      = .ok (true, 2, []) := by
  decide

/-- C7, amended: registration is not idempotent. When both elements exist,
every run of the content-loaded handler creates a new handler function and
registers it on the overlay, so after two runs the overlay carries two more
click listeners, with different identities and the same body, and a click
whose target is not the overlay makes them call `stopPropagation` twice;
propagation is then stopped. -/
theorem double_initialisation_registers_twice (w : World) (m c : NodeRef)
    (hm : getElementById w.doc "markdown" = some m)
    (hc : getElementById w.doc "markdown-container" = some c)
    (hfresh : w.Fresh) :
    ∃ w1 w2 fn1 fn2,
      contentLoaded w = .ok (.undefined, w1) ∧
      contentLoaded w1 = .ok (.undefined, w2) ∧
      w1.listeners = w.listeners ++ [⟨.element m, "click", fn1⟩] ∧
      w2.listeners = w.listeners ++
        [⟨.element m, "click", fn1⟩, ⟨.element m, "click", fn2⟩] ∧
      fn1.ident ≠ fn2.ident ∧ fn1.code = fn2.code ∧
      ∀ e w3, e.type = "click" → e.target ≠ .element m →
        e.immediatePropagationStopped = false →
        runListeners (.element m)
            [⟨.element m, "click", fn1⟩, ⟨.element m, "click", fn2⟩] e w3
          = .ok (e.stopPropagation.stopPropagation, w3) ∧
        e.stopPropagation.stopPropagation.stopPropagationCalls
          = e.stopPropagationCalls + 2 ∧
        e.stopPropagation.stopPropagation.propagationStopped = true := by
  have h1 := contentLoaded_both_fresh w m c hm hc hfresh
  have hfresh1 : World.Fresh { w with
      listeners := w.listeners ++ [⟨.element m, "click",
        ⟨w.nextFn, .modalClick (some (.element m)) (some (.element c))⟩⟩],
      nextFn := w.nextFn + 1 } := by
    intro reg hreg
    simp only [List.mem_append, List.mem_singleton] at hreg
    rcases hreg with hreg | hreg
    · exact Nat.lt_succ_of_lt (hfresh reg hreg)
    · subst hreg
      exact Nat.lt_succ_self _
  have h2 := contentLoaded_both_fresh { w with
      listeners := w.listeners ++ [⟨.element m, "click",
        ⟨w.nextFn, .modalClick (some (.element m)) (some (.element c))⟩⟩],
      nextFn := w.nextFn + 1 } m c hm hc hfresh1
  refine ⟨_, _, ⟨w.nextFn, .modalClick (some (.element m)) (some (.element c))⟩,
    ⟨w.nextFn + 1, .modalClick (some (.element m)) (some (.element c))⟩,
    h1, h2, rfl, by simp, Nat.ne_of_lt (Nat.lt_succ_self _), rfl, ?_⟩
  intro e w3 htype htarget himm
  refine ⟨?_, rfl, rfl⟩
  have hne : some e.target ≠ some (Target.element m) := fun h => htarget (Option.some.inj h)
  simp [runListeners, invoke, modalClick, Event.stopPropagation, htype, himm, hne]

/-- C7, amended, at the document `<div id="markdown"><div
id="markdown-container"><button id="inner">`. -/
theorem double_initialisation_registers_twice_witness :
    (getElementById (pageReady docMarkdown).doc "markdown" = some 2 ∧
     getElementById (pageReady docMarkdown).doc "markdown-container" = some 3 ∧
     (pageReady docMarkdown).Fresh) ∧
    ∃ w1 w2 fn1 fn2,
      contentLoaded (pageReady docMarkdown) = .ok (.undefined, w1) ∧
      contentLoaded w1 = .ok (.undefined, w2) ∧
      w1.listeners = (pageReady docMarkdown).listeners ++ [⟨.element 2, "click", fn1⟩] ∧
      w2.listeners = (pageReady docMarkdown).listeners ++
        [⟨.element 2, "click", fn1⟩, ⟨.element 2, "click", fn2⟩] ∧
      fn1.ident ≠ fn2.ident ∧ fn1.code = fn2.code ∧
      ∀ e w3, e.type = "click" → e.target ≠ .element 2 →
        e.immediatePropagationStopped = false →
        runListeners (.element 2)
            [⟨.element 2, "click", fn1⟩, ⟨.element 2, "click", fn2⟩] e w3
          = .ok (e.stopPropagation.stopPropagation, w3) ∧
        e.stopPropagation.stopPropagation.stopPropagationCalls
          = e.stopPropagationCalls + 2 ∧
        e.stopPropagation.stopPropagation.propagationStopped = true :=
  ⟨by decide,
   double_initialisation_registers_twice (pageReady docMarkdown) 2 3 (by decide)
    (by decide) (by decide)⟩

/-- C8: when both looked-up elements exist, one run of the content-loaded
handler adds exactly one listener to the page: a click listener on the
overlay, a new function object whose body is the script's click handler.
The overlay and the content container are different elements, and the click
listeners of the content container are the same as before. -/
theorem one_click_listener_on_overlay (w : World) (m c : NodeRef)
    (hm : getElementById w.doc "markdown" = some m)
    (hc : getElementById w.doc "markdown-container" = some c)
    (hfresh : w.Fresh) :
    ∃ w1 fn, contentLoaded w = .ok (.undefined, w1) ∧
      w1.listeners = w.listeners ++ [⟨.element m, "click", fn⟩] ∧
      fn.code = .modalClick (some (.element m)) (some (.element c)) ∧
      (∀ reg ∈ w.listeners, reg.fn.ident ≠ fn.ident) ∧
      clickListenersOn (.element m) w1 = clickListenersOn (.element m) w ++ [fn] ∧
      m ≠ c ∧
      clickListenersOn (.element c) w1 = clickListenersOn (.element c) w := by
  have hmc := overlay_ne_content w.doc m c hm hc
  refine ⟨_, ⟨w.nextFn, .modalClick (some (.element m)) (some (.element c))⟩,
    contentLoaded_both_fresh w m c hm hc hfresh, rfl, rfl, ?_, ?_, hmc, ?_⟩
  · intro reg hreg
    exact Nat.ne_of_lt (hfresh reg hreg)
  · simp [clickListenersOn, List.filter_append]
  · have hne : ¬ (Target.element m = Target.element c) := fun h => hmc (Target.element.inj h)
    simp [clickListenersOn, List.filter_append, hne]

/-- C8 at the document `<div id="markdown"><div id="markdown-container"><button
id="inner">`, with observers on `body` and on the document. -/
theorem one_click_listener_on_overlay_witness :
    (getElementById (pageReady docMarkdown).doc "markdown" = some 2 ∧
     getElementById (pageReady docMarkdown).doc "markdown-container" = some 3 ∧
     (pageReady docMarkdown).Fresh) ∧
    ∃ w1 fn, contentLoaded (pageReady docMarkdown) = .ok (.undefined, w1) ∧
      w1.listeners = (pageReady docMarkdown).listeners ++ [⟨.element 2, "click", fn⟩] ∧
      fn.code = .modalClick (some (.element 2)) (some (.element 3)) ∧
      (∀ reg ∈ (pageReady docMarkdown).listeners, reg.fn.ident ≠ fn.ident) ∧
      clickListenersOn (.element 2) w1
        = clickListenersOn (.element 2) (pageReady docMarkdown) ++ [fn] ∧
      2 ≠ 3 ∧
      clickListenersOn (.element 3) w1
        = clickListenersOn (.element 3) (pageReady docMarkdown) :=
  ⟨by decide,
   one_click_listener_on_overlay (pageReady docMarkdown) 2 3 (by decide) (by decide)
    (by decide)⟩

/-- C9: for every event passed to the click handler, whatever the captured
element references, the call completes without error and returns nothing, the
page (document, listeners, observations) is unchanged, and the event is either
untouched or has had `stopPropagation` called on it once: its type, target,
stop-immediate-propagation flag and default-prevented flag are unchanged. -/
theorem handler_only_decides_propagation (i : Nat) (modal content : Option Target)
    (cur : Target) (e : Event) (w : World) :
    ∃ e1, invoke ⟨i, .modalClick modal content⟩ cur e w = .ok (.undefined, e1, w) ∧
      modalClick modal content e = .ok (.undefined, e1) ∧
      (e1 = e ∨ e1 = e.stopPropagation) ∧
      e1.type = e.type ∧ e1.target = e.target ∧
      e1.immediatePropagationStopped = e.immediatePropagationStopped ∧
      e1.defaultPrevented = e.defaultPrevented := by
  rcases modalClick_cases modal content e with ⟨_, h⟩ | ⟨_, h⟩
  · exact ⟨e, by simp [invoke, h], h, Or.inl rfl, rfl, rfl, rfl, rfl⟩
  · exact ⟨e.stopPropagation, by simp [invoke, h], h, Or.inr rfl, rfl, rfl, rfl, rfl⟩

/-- C10: when both looked-up elements exist and the content-loaded handler has
run, the registered overlay handler calls `stopPropagation` if and only if
the event's target is not the overlay; the content container reference it was
created with does not influence the result; in particular a click on a
descendant of the overlay outside the content container has its propagation
stopped. -/
theorem decision_depends_on_overlay_only (w : World) (m c : NodeRef)
    (hm : getElementById w.doc "markdown" = some m)
    (hc : getElementById w.doc "markdown-container" = some c)
    (hfresh : w.Fresh) :
    ∃ w1 fn, contentLoaded w = .ok (.undefined, w1) ∧
      w1.listeners = w.listeners ++ [⟨.element m, "click", fn⟩] ∧
      (∀ e cur w2, (e.target ≠ .element m ↔
        invoke fn cur e w2 = .ok (.undefined, e.stopPropagation, w2))) ∧
      (∀ e cur w2, (e.target = .element m ↔
        invoke fn cur e w2 = .ok (.undefined, e, w2))) ∧
      (∀ content e cur w2, invoke ⟨fn.ident, .modalClick (some (.element m)) content⟩ cur e w2
        = invoke fn cur e w2) ∧
      (∀ t e cur w2, e.target = .element t → t ≠ m →
        m ∈ ancestorsOrSelf w.doc (t + 1) t → c ∉ ancestorsOrSelf w.doc (t + 1) t →
        invoke fn cur e w2 = .ok (.undefined, e.stopPropagation, w2)) := by
  refine ⟨_, ⟨w.nextFn, .modalClick (some (.element m)) (some (.element c))⟩,
    contentLoaded_both_fresh w m c hm hc hfresh, rfl, ?_, ?_, ?_, ?_⟩
  · intro e cur w2
    constructor
    · exact invoke_modalClick_off_overlay _ m _ cur e w2
    · intro h heq
      rw [invoke_modalClick_on_overlay _ m _ cur e w2 heq] at h
      simp only [Except.ok.injEq, Prod.mk.injEq, true_and, and_true] at h
      exact stopPropagation_ne e h.symm
  · intro e cur w2
    constructor
    · exact invoke_modalClick_on_overlay _ m _ cur e w2
    · intro h
      by_contra hne
      rw [invoke_modalClick_off_overlay _ m _ cur e w2 hne] at h
      simp only [Except.ok.injEq, Prod.mk.injEq, true_and, and_true] at h
      exact stopPropagation_ne e h
  · intro content e cur w2
    simp [invoke, modalClick]
  · intro t e cur w2 he hne _ _
    refine invoke_modalClick_off_overlay _ m _ cur e w2 ?_
    rw [he]
    intro h
    exact hne (Target.element.inj h)

/-- C10 at the document `<div id="markdown"><span id="close">x</span><div
id="markdown-container"></div></div>`: for a click on `#close`, which lies in
the overlay and outside the content container, the handler calls
`stopPropagation`. -/
theorem decision_depends_on_overlay_only_witness :
    (getElementById (pageReady docClose).doc "markdown" = some 2 ∧
     getElementById (pageReady docClose).doc "markdown-container" = some 4 ∧
     (pageReady docClose).Fresh ∧
     2 ∈ ancestorsOrSelf (pageReady docClose).doc (3 + 1) 3 ∧
     4 ∉ ancestorsOrSelf (pageReady docClose).doc (3 + 1) 3) ∧
    ∃ w1 fn, contentLoaded (pageReady docClose) = .ok (.undefined, w1) ∧
      w1.listeners = (pageReady docClose).listeners ++ [⟨.element 2, "click", fn⟩] ∧
      (∀ e cur w2, (e.target ≠ .element 2 ↔
        invoke fn cur e w2 = .ok (.undefined, e.stopPropagation, w2))) ∧
      (∀ e cur w2, (e.target = .element 2 ↔
        invoke fn cur e w2 = .ok (.undefined, e, w2))) ∧
      (∀ content e cur w2, invoke ⟨fn.ident, .modalClick (some (.element 2)) content⟩ cur e w2
        = invoke fn cur e w2) ∧
      (∀ t e cur w2, e.target = .element t → t ≠ 2 →
        2 ∈ ancestorsOrSelf (pageReady docClose).doc (t + 1) t →
        4 ∉ ancestorsOrSelf (pageReady docClose).doc (t + 1) t →
        invoke fn cur e w2 = .ok (.undefined, e.stopPropagation, w2)) :=
  ⟨by decide,
   decision_depends_on_overlay_only (pageReady docClose) 2 4 (by decide) (by decide)
    (by decide)⟩

end ModalJs
